import Mathlib

/-!
Verification of the gbe-envoy tool-composition bus against its
natural-language specification.

The repository is a Rust workspace with five crates: a wire-protocol codec
(`protocol`), a control-plane broker (`router`), a command-wrapping adapter
(`adapter`), a fan-out relay (`proxy`), and two in-memory buffers (`buffer`).
This file shallowly embeds the functions and state machines the spec claims
talk about, and proves or refutes each claim.

Machine integers are modelled as `Nat` with explicit `% 2^w` where the Rust
code truncates; byte strings are `List Nat`; Rust `String` keys are Lean
`String`; fallible Rust functions return `Except`/`Option`.
-/

namespace GbeEnvoy

/-! ## Big-endian byte encoding helpers

`beBytes w n` is the `w`-byte big-endian encoding of `n % 256^w`, matching
`u32::to_be_bytes` / `u64::to_be_bytes` for `w = 4` / `w = 8`; `beVal`
matches `u32::from_be_bytes` / `u64::from_be_bytes`. -/

def beBytes : Nat → Nat → List Nat
  | 0, _ => []
  | w + 1, n => beBytes w (n / 256) ++ [n % 256]

def beVal (bytes : List Nat) : Nat :=
  bytes.foldl (fun acc b => acc * 256 + b) 0

theorem beBytes_length (w n : Nat) : (beBytes w n).length = w := by
  induction w generalizing n with
  | zero => rfl
  | succ w ih => simp [beBytes, ih]

theorem beVal_append_singleton (l : List Nat) (b : Nat) :
    beVal (l ++ [b]) = beVal l * 256 + b := by
  simp [beVal, List.foldl_append]

theorem beVal_beBytes (w n : Nat) : beVal (beBytes w n) = n % 256 ^ w := by
  induction w generalizing n with
  | zero => simp [beBytes, beVal, Nat.mod_one]
  | succ w ih =>
    rw [beBytes, beVal_append_singleton, ih]
    have h256 : (0 : Nat) < 256 := by norm_num
    have hdm : n / 256 % 256 ^ w = n % 256 ^ (w + 1) / 256 := by
      rw [pow_succ, Nat.mod_mul_left_div_self]
    have hmm : n % 256 ^ (w + 1) % 256 = n % 256 := by
      apply Nat.mod_mod_of_dvd
      exact dvd_pow_self 256 (Nat.succ_ne_zero w)
    rw [hdm]
    conv_rhs => rw [← Nat.div_add_mod (n % 256 ^ (w + 1)) 256]
    rw [hmm]
    ring

/-! ## Data frames (`src/protocol/src/lib.rs`)

`DataFrame` is the binary data-channel frame: wire format
`[u32 payload_len BE][u64 seq BE][payload]`. -/

structure DataFrame where
  seq : Nat
  payload : List Nat
  deriving DecidableEq, Repr

namespace DataFrame

/-- Embedding of `DataFrame::to_bytes`: the length field is
`payload.len() as u32`, hence the `% 2^32` (a silent truncation in Rust). -/
def to_bytes (f : DataFrame) : List Nat :=
  beBytes 4 f.payload.length ++ beBytes 8 f.seq ++ f.payload

/-- Embedding of `DataFrame::from_bytes`: reject frames shorter than the
12-byte header, decode length and sequence, and require the total length to
match exactly. -/
def from_bytes (bytes : List Nat) : Except String DataFrame :=
  if bytes.length < 12 then
    .error "Frame too short"
  else
    let len := beVal (bytes.take 4)
    let seq := beVal ((bytes.drop 4).take 8)
    if bytes.length ≠ 12 + len then
      .error "length mismatch"
    else
      .ok ⟨seq, bytes.drop 12⟩

theorem to_bytes_length (f : DataFrame) :
    f.to_bytes.length = 12 + f.payload.length := by
  simp [to_bytes, beBytes_length]; omega

theorem from_bytes_to_bytes (f : DataFrame) (hs : f.seq < 2 ^ 64)
    (hp : f.payload.length < 2 ^ 32) :
    from_bytes f.to_bytes = .ok f := by
  have hlen : f.to_bytes.length = 12 + f.payload.length := to_bytes_length f
  have htake4 : f.to_bytes.take 4 = beBytes 4 f.payload.length := by
    rw [to_bytes, List.append_assoc]
    exact List.take_left' (beBytes_length 4 f.payload.length)
  have hdrop4 : f.to_bytes.drop 4 = beBytes 8 f.seq ++ f.payload := by
    rw [to_bytes, List.append_assoc]
    exact List.drop_left' (beBytes_length 4 f.payload.length)
  have htake8 : (f.to_bytes.drop 4).take 8 = beBytes 8 f.seq := by
    rw [hdrop4]
    exact List.take_left' (beBytes_length 8 f.seq)
  have hdrop12 : f.to_bytes.drop 12 = f.payload := by
    rw [to_bytes]
    exact List.drop_left' (by simp [beBytes_length])
  have hlenval : beVal (f.to_bytes.take 4) = f.payload.length := by
    rw [htake4, beVal_beBytes]
    exact Nat.mod_eq_of_lt (by exact_mod_cast hp)
  have hseqval : beVal ((f.to_bytes.drop 4).take 8) = f.seq := by
    rw [htake8, beVal_beBytes]
    exact Nat.mod_eq_of_lt (by exact_mod_cast hs)
  rw [from_bytes]
  rw [if_neg (by omega)]
  simp only [hlenval, hseqval]
  rw [if_neg (by omega)]
  rw [hdrop12]

end DataFrame

/-- C1: for every data frame whose sequence number fits in `u64` and whose
payload length fits in `u32` (the Rust types), encoding with
`DataFrame::to_bytes` then decoding with `DataFrame::from_bytes` returns the
same `(seq, payload)` pair; in particular encoding `(seq = 100,
payload = "test")` yields exactly the 16 bytes
`00 00 00 04 | 00 00 00 00 00 00 00 64 | 74 65 73 74` and decoding those
bytes yields that frame back. -/
theorem dataframe_roundtrip_c1 (f : DataFrame) (hs : f.seq < 2 ^ 64)
    (hp : f.payload.length < 2 ^ 32) :
    DataFrame.from_bytes f.to_bytes = .ok f ∧
    DataFrame.to_bytes ⟨100, [0x74, 0x65, 0x73, 0x74]⟩ =
      [0x00, 0x00, 0x00, 0x04,
       0x00, 0x00, 0x00, 0x00, 0x00, 0x00, 0x00, 0x64,
       0x74, 0x65, 0x73, 0x74] ∧
    DataFrame.from_bytes
      [0x00, 0x00, 0x00, 0x04,
       0x00, 0x00, 0x00, 0x00, 0x00, 0x00, 0x00, 0x64,
       0x74, 0x65, 0x73, 0x74] = .ok ⟨100, [0x74, 0x65, 0x73, 0x74]⟩ := by
  refine ⟨DataFrame.from_bytes_to_bytes f hs hp, by decide, by rfl⟩

/-- Witness for C1 at the spec's own S6 frame `(seq = 100, payload = "test")`. -/
theorem dataframe_roundtrip_c1_witness :
    DataFrame.from_bytes (DataFrame.to_bytes ⟨100, [0x74, 0x65, 0x73, 0x74]⟩) =
      .ok ⟨100, [0x74, 0x65, 0x73, 0x74]⟩ :=
  (dataframe_roundtrip_c1 ⟨100, [0x74, 0x65, 0x73, 0x74]⟩
    (by decide) (by decide)).1

/-! ## Decimal rendering of tool identities (`src/router/src/main.rs`)

`RouterState::assign_tool_id` renders `format!("{pid}-{seq:03}")`: the pid in
plain decimal, a dash, and the ordinal zero-padded to width at least 3. -/

/-- Fuel-driven big-endian decimal digit accumulator (structural recursion so
that concrete identities evaluate inside the kernel). -/
def natDigitsBEAux : Nat → Nat → List Nat
  | 0, _ => []
  | fuel + 1, n => if n = 0 then [] else natDigitsBEAux fuel (n / 10) ++ [n % 10]

/-- Big-endian decimal digit list of `n` (empty for `0`). -/
def natDigitsBE (n : Nat) : List Nat :=
  natDigitsBEAux n n

theorem natDigitsBEAux_eq (fuel n : Nat) (h : n ≤ fuel) :
    natDigitsBEAux fuel n = (Nat.digits 10 n).reverse := by
  induction fuel generalizing n with
  | zero =>
    have : n = 0 := Nat.le_zero.1 h
    subst this
    simp [natDigitsBEAux]
  | succ fuel ih =>
    by_cases hn : n = 0
    · subst hn
      simp [natDigitsBEAux]
    · rw [natDigitsBEAux, if_neg hn]
      have hdiv : n / 10 ≤ fuel := by
        have : n / 10 < n := Nat.div_lt_self (Nat.pos_of_ne_zero hn) (by norm_num)
        omega
      rw [ih _ hdiv, Nat.digits_def' (by norm_num : 1 < 10) (Nat.pos_of_ne_zero hn)]
      simp

theorem natDigitsBE_eq (n : Nat) : natDigitsBE n = (Nat.digits 10 n).reverse :=
  natDigitsBEAux_eq n n le_rfl

/-- Decimal digits of `n` zero-padded on the left to width at least 3,
matching the `{seq:03}` format specifier. -/
def pad3 (n : Nat) : List Nat :=
  List.replicate (3 - (natDigitsBE n).length) 0 ++ natDigitsBE n

/-- Characters of `format!("{n}")`. -/
def decChars (n : Nat) : List Char :=
  if n = 0 then ['0'] else (natDigitsBE n).map Nat.digitChar

/-- Characters of `format!("{n:03}")`. -/
def ordChars (n : Nat) : List Char :=
  (pad3 n).map Nat.digitChar

/-- Characters of `format!("{pid}-{seq:03}")`. -/
def toolIdChars (pid seq : Nat) : List Char :=
  decChars pid ++ '-' :: ordChars seq

/-- The tool identity string `format!("{pid}-{seq:03}")`. -/
def toolIdStr (pid seq : Nat) : String :=
  String.mk (toolIdChars pid seq)

theorem ofDigits_replicate_zero (b k : Nat) :
    Nat.ofDigits b (List.replicate k 0) = 0 := by
  induction k with
  | zero => simp [Nat.ofDigits]
  | succ k ih => simp [List.replicate_succ, Nat.ofDigits_cons, ih]

theorem ofDigits_pad3_reverse (n : Nat) :
    Nat.ofDigits 10 (pad3 n).reverse = n := by
  have h : (pad3 n).reverse =
      Nat.digits 10 n ++ List.replicate (3 - (natDigitsBE n).length) 0 := by
    simp [pad3, natDigitsBE_eq, List.reverse_append, List.reverse_replicate]
  rw [h, Nat.ofDigits_append, Nat.ofDigits_digits, ofDigits_replicate_zero]
  ring

theorem pad3_injective {a b : Nat} (h : pad3 a = pad3 b) : a = b := by
  have := congrArg (fun l => Nat.ofDigits 10 (List.reverse l)) h
  simpa [ofDigits_pad3_reverse] using this

theorem pad3_digits_lt {n d : Nat} (hd : d ∈ pad3 n) : d < 10 := by
  rcases List.mem_append.1 hd with h | h
  · have := List.eq_of_mem_replicate h
    omega
  · have : d ∈ Nat.digits 10 n := by
      simpa [natDigitsBE_eq] using h
    exact Nat.digits_lt_base (by norm_num) this

theorem pad3_length_ge (n : Nat) : 3 ≤ (pad3 n).length := by
  simp only [pad3, List.length_append, List.length_replicate]
  omega

theorem digitChar_inj_fin :
    ∀ a b : Fin 10, Nat.digitChar a.val = Nat.digitChar b.val → a = b := by
  decide

theorem digitChar_isDigit_fin :
    ∀ d : Fin 10, (Nat.digitChar d.val).isDigit = true := by
  decide

theorem map_digitChar_inj :
    ∀ {l₁ l₂ : List Nat}, (∀ d ∈ l₁, d < 10) → (∀ d ∈ l₂, d < 10) →
      l₁.map Nat.digitChar = l₂.map Nat.digitChar → l₁ = l₂ := by
  intro l₁
  induction l₁ with
  | nil =>
    intro l₂ _ _ h
    cases l₂ with
    | nil => rfl
    | cons b t => simp at h
  | cons a t ih =>
    intro l₂ h₁ h₂ h
    cases l₂ with
    | nil => simp at h
    | cons b t' =>
      simp only [List.map_cons, List.cons.injEq] at h
      have ha : a < 10 := h₁ a (List.mem_cons_self a t)
      have hb : b < 10 := h₂ b (List.mem_cons_self b t')
      have hab : a = b := by
        have hfin := digitChar_inj_fin ⟨a, ha⟩ ⟨b, hb⟩ h.1
        exact congrArg Fin.val hfin
      refine List.cons_eq_cons.2 ⟨hab, ih ?_ ?_ h.2⟩
      · exact fun d hd => h₁ d (List.mem_cons_of_mem a hd)
      · exact fun d hd => h₂ d (List.mem_cons_of_mem b hd)

theorem ordChars_injective {a b : Nat} (h : ordChars a = ordChars b) : a = b :=
  pad3_injective (map_digitChar_inj
    (fun _ hd => pad3_digits_lt hd) (fun _ hd => pad3_digits_lt hd) h)

theorem toolIdStr_injective (pid : Nat) {a b : Nat}
    (h : toolIdStr pid a = toolIdStr pid b) : a = b := by
  have hc : toolIdChars pid a = toolIdChars pid b := by
    have := congrArg String.data h
    simpa [toolIdStr] using this
  have : ordChars a = ordChars b := by
    have := List.append_cancel_left hc
    simpa using this
  exact ordChars_injective this

/-! ## Control messages (`src/protocol/src/lib.rs`, `enum ControlMessage`) -/

structure ToolInfo where
  tool_id : String
  capabilities : List String
  deriving DecidableEq, Repr

inductive ControlMessage where
  | connect (capabilities : List String)
  | connectAck (tool_id : String) (data_listen_address : String)
  | disconnect
  | subscribe (target : String)
  | subscribeAck (data_connect_address : String) (capabilities : List String)
  | unsubscribe (target : String)
  | flowControl (source : String) (status : String)
  | queryCapabilities (target : String)
  | capabilitiesResponse (capabilities : List String)
  | queryTools
  | toolsResponse (tools : List ToolInfo)
  | error (code : String) (message : String)
  deriving DecidableEq, Repr

/-! ## Association-list model of the broker's `HashMap`s

The broker's three tables are `HashMap`s; we model each as an association
list whose operations mirror `HashMap::insert` / `remove` / `get` /
`retain`. Lookup returns the first matching key. -/

def alookup {α : Type} (k : String) : List (String × α) → Option α
  | [] => none
  | (k', v) :: rest => if k' = k then some v else alookup k rest

def ainsert {α : Type} (k : String) (v : α) (l : List (String × α)) :
    List (String × α) :=
  l.filter (fun p => p.1 ≠ k) ++ [(k, v)]

def aremove {α : Type} (k : String) (l : List (String × α)) :
    List (String × α) :=
  l.filter (fun p => p.1 ≠ k)

theorem alookup_append {α : Type} (k : String) (l₁ l₂ : List (String × α)) :
    alookup k (l₁ ++ l₂) =
      match alookup k l₁ with
      | some v => some v
      | none => alookup k l₂ := by
  induction l₁ with
  | nil => simp [alookup]
  | cons p t ih =>
    by_cases h : p.1 = k
    · simp [alookup, h]
    · simp [alookup, h, ih]

theorem alookup_filter_self {α : Type} (k : String) (l : List (String × α)) :
    alookup k (l.filter fun p => p.1 ≠ k) = none := by
  induction l with
  | nil => rfl
  | cons p t ih =>
    by_cases h : p.1 = k
    · simpa [List.filter, h] using ih
    · simpa [List.filter, h, alookup] using ih

theorem alookup_filter_ne {α : Type} {k k' : String} (hne : k ≠ k')
    (l : List (String × α)) :
    alookup k (l.filter fun p => p.1 ≠ k') = alookup k l := by
  induction l with
  | nil => rfl
  | cons p t ih =>
    by_cases h : p.1 = k'
    · have h2 : p.1 ≠ k := fun hc => hne (hc ▸ h)
      simpa [List.filter, h, alookup, h2, Ne.symm hne] using ih
    · by_cases h2 : p.1 = k
      · simp [List.filter, h, alookup, h2, hne]
      · simpa [List.filter, h, alookup, h2] using ih

theorem alookup_ainsert_self {α : Type} (k : String) (v : α)
    (l : List (String × α)) : alookup k (ainsert k v l) = some v := by
  rw [ainsert, alookup_append, alookup_filter_self]
  simp [alookup]

theorem alookup_ainsert_ne {α : Type} {k k' : String} (hne : k' ≠ k)
    (v : α) (l : List (String × α)) :
    alookup k (ainsert k' v l) = alookup k l := by
  rw [ainsert, alookup_append, alookup_filter_ne (fun hc => hne hc.symm)]
  cases alookup k l with
  | none => simp [alookup, hne]
  | some v' => simp

theorem alookup_aremove_self {α : Type} (k : String) (l : List (String × α)) :
    alookup k (aremove k l) = none :=
  alookup_filter_self k l

theorem alookup_aremove_ne {α : Type} {k k' : String} (hne : k ≠ k')
    (l : List (String × α)) : alookup k (aremove k' l) = alookup k l :=
  alookup_filter_ne hne l

/-! ## Broker state (`src/router/src/main.rs`, `struct RouterState`)

The `Child` process handle inside `ProxyInfo` is an OS resource with no
bearing on any claim; the two observable fields are kept. -/

structure ConnectionInfo where
  tool_id : String
  data_listen_address : String
  capabilities : List String
  deriving DecidableEq, Repr

structure ProxyInfo where
  listen_address : String
  source_tool_id : String
  deriving DecidableEq, Repr

structure RouterState where
  next_seq : Nat
  connections : List (String × ConnectionInfo)
  subscriptions : List (String × List String)
  proxies : List (String × ProxyInfo)
  deriving DecidableEq, Repr

namespace RouterState

/-- Embedding of `RouterState::new()`: the counter starts at 1. -/
def new : RouterState := ⟨1, [], [], []⟩

/-- Embedding of `RouterState::assign_tool_id`: `format!("{pid}-{seq:03}")`
with `seq` read from the `AtomicU64` counter via `fetch_add(1)`, which
returns the previous value and stores the incremented value wrapping
modulo `2^64` (the documented overflow behaviour of `fetch_add`). -/
def assign_tool_id (pid : Nat) (s : RouterState) : String × RouterState :=
  (toolIdStr pid (s.next_seq % 2 ^ 64),
    { s with next_seq := (s.next_seq + 1) % 2 ^ 64 })

/-- Embedding of `RouterState::assign_data_address`. -/
def assign_data_address (tool_id : String) : String :=
  "unix:///tmp/gbe-" ++ tool_id ++ ".sock"

/-- Embedding of `RouterState::register_connection`. -/
def register_connection (s : RouterState) (tool_id data_address : String)
    (capabilities : List String) : RouterState :=
  { s with connections :=
      ainsert tool_id ⟨tool_id, data_address, capabilities⟩ s.connections }

/-- Embedding of `RouterState::unregister_connection`: remove from the
registry, scrub the tool from every subscriber list dropping emptied lists
(`retain`), remove the tool's own subscription entry, and remove its proxy
entry. -/
def unregister_connection (s : RouterState) (tool_id : String) : RouterState :=
  { s with
    connections := aremove tool_id s.connections,
    subscriptions := aremove tool_id
      ((s.subscriptions.map
          (fun p => (p.1, p.2.filter (fun sub => sub ≠ tool_id)))).filter
        (fun p => !p.2.isEmpty)),
    proxies := aremove tool_id s.proxies }

/-- Embedding of `RouterState::get_connection`. -/
def get_connection (s : RouterState) (tool_id : String) :
    Option ConnectionInfo :=
  alookup tool_id s.connections

/-- Embedding of `RouterState::list_tools`. -/
def list_tools (s : RouterState) : List ToolInfo :=
  s.connections.map (fun p => ⟨p.2.tool_id, p.2.capabilities⟩)

/-- Embedding of `RouterState::add_subscription`:
`subs.entry(source).or_default().push(subscriber)`. -/
def add_subscription (s : RouterState) (source subscriber : String) :
    RouterState :=
  { s with subscriptions :=
      (ainsert source
        ((alookup source s.subscriptions).getD [] ++ [subscriber])
        s.subscriptions) }

/-- The relay listen address `format!("unix:///tmp/gbe-proxy-{pid}-{seq:03}.sock")`
reserved in `RouterState::spawn_proxy`. -/
def proxyListenAddr (pid seq : Nat) : String :=
  "unix:///tmp/gbe-proxy-" ++ String.mk (decChars pid) ++ "-" ++
    String.mk (ordChars seq) ++ ".sock"

/-- Embedding of `RouterState::spawn_proxy`. The counter is consumed before
the spawn attempt, so it advances even when the spawn fails; `ok` is the
outcome of the environmental `Command::spawn` call: on success the proxy is
recorded and its listen address returned, on failure `Err` is returned and
the proxy table is untouched. -/
def spawn_proxy (pid : Nat) (s : RouterState) (source : String) (ok : Bool) :
    Option String × RouterState :=
  if ok then
    (some (proxyListenAddr pid s.next_seq),
      { s with next_seq := s.next_seq + 1,
               proxies := ainsert source
                 ⟨proxyListenAddr pid s.next_seq, source⟩ s.proxies })
  else
    (none, { s with next_seq := s.next_seq + 1 })

/-- Embedding of `RouterState::get_proxy_address`. -/
def get_proxy_address (s : RouterState) (source : String) : Option String :=
  (alookup source s.proxies).map (fun p => p.listen_address)

end RouterState

/-! ## Connect processing (`handle_connection`, `Connect` arm) -/

/-- State change of the `Connect` arm of `handle_connection`: assign an
identity, compute the data address, insert into the registry. -/
def connectStep (pid : Nat) (s : RouterState) (capabilities : List String) :
    String × RouterState :=
  let (tid, s1) := s.assign_tool_id pid
  (tid, s1.register_connection tid (RouterState.assign_data_address tid)
    capabilities)

/-- Identities assigned by the broker for a sequence of `Connect` messages
(one entry of `capsList` per message), in processing order. -/
def connectIds (pid : Nat) (s : RouterState) :
    List (List String) → List String
  | [] => []
  | caps :: rest =>
    let (tid, s1) := connectStep pid s caps
    tid :: connectIds pid s1 rest

theorem connectIds_eq (pid : Nat) (s : RouterState)
    (capsList : List (List String))
    (hw : s.next_seq + capsList.length ≤ 2 ^ 64) :
    connectIds pid s capsList =
      (List.range capsList.length).map
        (fun i => toolIdStr pid (s.next_seq + i)) := by
  induction capsList generalizing s with
  | nil => rfl
  | cons caps rest ih =>
    simp only [List.length_cons] at hw
    have hlt : s.next_seq < 2 ^ 64 := by omega
    rw [connectIds]
    show (connectStep pid s caps).1 ::
      connectIds pid (connectStep pid s caps).2 rest = _
    have hhead : (connectStep pid s caps).1 = toolIdStr pid s.next_seq := by
      show toolIdStr pid (s.next_seq % 2 ^ 64) = toolIdStr pid s.next_seq
      rw [Nat.mod_eq_of_lt hlt]
    have hS : ((connectStep pid s caps).2).next_seq =
        (s.next_seq + 1) % 2 ^ 64 := rfl
    rw [hhead, List.length_cons, List.range_succ_eq_map, List.map_cons,
      List.map_map]
    refine congrArg₂ _ (by rw [Nat.add_zero]) ?_
    by_cases hr : rest = []
    · subst hr
      rfl
    · have hrlen : 0 < rest.length := List.length_pos.mpr hr
      have hlt1 : s.next_seq + 1 < 2 ^ 64 := by omega
      have hws : ((connectStep pid s caps).2).next_seq + rest.length ≤
          2 ^ 64 := by
        rw [hS, Nat.mod_eq_of_lt hlt1]
        omega
      rw [ih _ hws]
      apply List.map_congr_left
      intro i _
      show toolIdStr pid (((connectStep pid s caps).2).next_seq + i) =
        toolIdStr pid (s.next_seq + (i + 1))
      rw [hS, Nat.mod_eq_of_lt hlt1]
      congr 1
      omega

/-- C2: for any non-empty sequence of N `Connect` messages processed by one
broker whose `u64` counter does not wrap during the sequence (the disclosed
representability bound `next_seq + N ≤ 2^64`; `fetch_add` wraps modulo
`2^64` beyond it), the assigned identities are rendered from N ordinals
that are strictly increasing in processing order; the rendered identities
are pairwise distinct and each has the shape `<broker-pid>-<digits>` with
the digit part at least 3 characters long. -/
theorem broker_identities_c2 (pid : Nat) (s : RouterState)
    (capsList : List (List String)) (_hne : capsList ≠ [])
    (hw : s.next_seq + capsList.length ≤ 2 ^ 64) :
    ∃ ords : List Nat,
      connectIds pid s capsList = ords.map (toolIdStr pid) ∧
      ords.length = capsList.length ∧
      List.Pairwise (· < ·) ords ∧
      List.Pairwise (· ≠ ·) (connectIds pid s capsList) ∧
      ∀ id ∈ connectIds pid s capsList, ∃ ds : List Char,
        id = String.mk (decChars pid ++ '-' :: ds) ∧ 3 ≤ ds.length ∧
        ∀ c ∈ ds, c.isDigit := by
  clear _hne
  refine ⟨(List.range capsList.length).map (fun i => s.next_seq + i), ?_, ?_, ?_, ?_, ?_⟩
  · rw [connectIds_eq pid s capsList hw, List.map_map]
    rfl
  · simp
  · refine List.Pairwise.map _ (fun a b h => by omega) (List.pairwise_lt_range _)
  · rw [connectIds_eq pid s capsList hw]
    refine List.Pairwise.map _ (fun a b h => ?_) (List.pairwise_lt_range _)
    intro hc
    have := toolIdStr_injective pid hc
    omega
  · intro id hid
    rw [connectIds_eq pid s capsList hw] at hid
    rcases List.mem_map.1 hid with ⟨i, _, rfl⟩
    refine ⟨ordChars (s.next_seq + i), rfl, ?_, ?_⟩
    · rw [ordChars, List.length_map]
      exact pad3_length_ge _
    · intro c hc
      rcases List.mem_map.1 hc with ⟨d, hd, rfl⟩
      exact digitChar_isDigit_fin ⟨d, pad3_digits_lt hd⟩

/-- Witness for C2: two `Connect` messages processed by a broker with pid
12345 from the initial state, whose counter (1) is far below the `u64` wrap. -/
theorem broker_identities_c2_witness :
    ∃ ords : List Nat,
      connectIds 12345 RouterState.new [[], ["pty"]] = ords.map (toolIdStr 12345) ∧
      ords.length = [[], ["pty"]].length ∧
      List.Pairwise (· < ·) ords ∧
      List.Pairwise (· ≠ ·) (connectIds 12345 RouterState.new [[], ["pty"]]) ∧
      ∀ id ∈ connectIds 12345 RouterState.new [[], ["pty"]], ∃ ds : List Char,
        id = String.mk (decChars 12345 ++ '-' :: ds) ∧ 3 ≤ ds.length ∧
        ∀ c ∈ ds, c.isDigit :=
  broker_identities_c2 12345 RouterState.new [[], ["pty"]] (by simp)
    (by norm_num [RouterState.new])

theorem alookup_eq_some_mem {α : Type} {k : String} {v : α}
    {l : List (String × α)} (h : alookup k l = some v) : (k, v) ∈ l := by
  induction l with
  | nil => simp [alookup] at h
  | cons p t ih =>
    by_cases hk : p.1 = k
    · rw [alookup, if_pos hk] at h
      obtain ⟨p1, p2⟩ := p
      simp only [Option.some.injEq] at h
      subst hk
      subst h
      exact List.mem_cons_self _ _
    · rw [alookup, if_neg hk] at h
      exact List.mem_cons_of_mem p (ih h)

/-- C3: after `unregister_connection(T)`, (a) `T` appears in no remaining
subscription list as a subscriber, (b) the subscription list keyed by `T` is
absent, and (c) the proxy (relay) entry for `T` is removed. -/
theorem unregister_scrub_c3 (s : RouterState) (tid : String) :
    (∀ src subs,
        alookup src (s.unregister_connection tid).subscriptions = some subs →
          tid ∉ subs) ∧
    alookup tid (s.unregister_connection tid).subscriptions = none ∧
    alookup tid (s.unregister_connection tid).proxies = none := by
  refine ⟨?_, ?_, ?_⟩
  · intro src subs hlook hmem
    have hmem' := alookup_eq_some_mem hlook
    rw [RouterState.unregister_connection] at hmem'
    simp only [aremove] at hmem'
    have h1 : (src, subs) ∈
        (s.subscriptions.map
          (fun p => (p.1, p.2.filter (fun sub => sub ≠ tid)))).filter
          (fun p => !p.2.isEmpty) :=
      (List.mem_filter.1 hmem').1
    have h2 := (List.mem_filter.1 h1).1
    rcases List.mem_map.1 h2 with ⟨p, _, hp⟩
    have hsubs : subs = p.2.filter (fun sub => sub ≠ tid) :=
      (congrArg Prod.snd hp).symm
    rw [hsubs] at hmem
    have := (List.mem_filter.1 hmem).2
    simp at this
  · exact alookup_aremove_self tid _
  · exact alookup_aremove_self tid _

/-- Witness for C3: a broker state where `T` subscribes to `A`, has its own
subscriber list and a proxy entry; after `unregister_connection "T"` the
scrubbed list survives without `T`, and both `T`-keyed entries are gone. -/
theorem unregister_scrub_c3_witness :
    "T" ∉ ["B"] ∧
    alookup "T" ((RouterState.mk 3
        [("T", ⟨"T", "unix:///tmp/gbe-T.sock", []⟩)]
        [("A", ["B", "T"]), ("T", ["A"])]
        [("T", ⟨"unix:///tmp/gbe-proxy-1-002.sock", "T"⟩)]).unregister_connection
        "T").subscriptions = none ∧
    alookup "T" ((RouterState.mk 3
        [("T", ⟨"T", "unix:///tmp/gbe-T.sock", []⟩)]
        [("A", ["B", "T"]), ("T", ["A"])]
        [("T", ⟨"unix:///tmp/gbe-proxy-1-002.sock", "T"⟩)]).unregister_connection
        "T").proxies = none := by
  have h := unregister_scrub_c3 (RouterState.mk 3
    [("T", ⟨"T", "unix:///tmp/gbe-T.sock", []⟩)]
    [("A", ["B", "T"]), ("T", ["A"])]
    [("T", ⟨"unix:///tmp/gbe-proxy-1-002.sock", "T"⟩)]) "T"
  exact ⟨h.1 "A" ["B"] (by rfl), h.2.1, h.2.2⟩

/-! ## Per-connection handling (`handle_connection`, `src/router/src/main.rs`
and `Connection::recv_message`, `src/router/src/connection.rs`)

A connection's input is a list of events: a well-formed control line parses
to `Event.msg`; a line that is not valid JSON for a `ControlMessage` is
`Event.malformed` (on it `recv_message` returns `Err`, which propagates out
of `handle_connection` through `?`); end of the list is EOF. The spawn
outcome of `Command::spawn` inside `spawn_proxy` is environmental, so the
run takes an oracle `orc : List Bool`, one entry consumed per spawn attempt
(`headD true`: attempts beyond the oracle succeed). -/

inductive Event where
  | msg (m : ControlMessage)
  | malformed
  deriving DecidableEq, Repr

inductive ConnResult where
  | clean
  | errored
  | eofClosed
  deriving DecidableEq, Repr

/-- The `Subscribe` arm of `handle_connection` for a registered subscriber:
look up the target (absent ⇒ `NOT_FOUND`), record the subscription, reuse an
existing proxy or spawn one, falling back to the target's direct data
address when the spawn fails. -/
def subscribeStep (pid : Nat) (s : RouterState) (subscriber target : String)
    (ok : Bool) : RouterState × ControlMessage :=
  match s.get_connection target with
  | some info =>
    match (s.add_subscription target subscriber).get_proxy_address target with
    | some addr =>
      (s.add_subscription target subscriber,
        .subscribeAck addr info.capabilities)
    | none =>
      match RouterState.spawn_proxy pid (s.add_subscription target subscriber)
          target ok with
      | (some addr, s2) => (s2, .subscribeAck addr info.capabilities)
      | (none, s2) =>
        (s2, .subscribeAck info.data_listen_address info.capabilities)
  | none => (s, .error "NOT_FOUND" ("Tool " ++ target ++ " not found"))

/-- Whether handling `Subscribe{target}` in state `s` reaches the
`spawn_proxy` call (target registered and no proxy recorded yet). -/
def spawnAttempted (s : RouterState) (target : String) : Bool :=
  (s.get_connection target).isSome && (s.get_proxy_address target).isNone

/-- Embedding of the body of `handle_connection`: process the connection's
events until EOF, an error, or `Disconnect`, returning the final broker
state, the replies sent on this connection in order, and how the connection
ended. `tid?` is the handler's `tool_id` local. -/
def runConn (pid : Nat) (s : RouterState) (tid? : Option String)
    (orc : List Bool) : List Event → RouterState × List ControlMessage × ConnResult
  | [] =>
    match tid? with
    | some tid => (s.unregister_connection tid, [], .eofClosed)
    | none => (s, [], .eofClosed)
  | .malformed :: _ => (s, [], .errored)
  | .msg m :: rest =>
    match m with
    | .connect caps =>
      let ts := connectStep pid s caps
      let r := runConn pid ts.2 (some ts.1) orc rest
      (r.1, .connectAck ts.1 (RouterState.assign_data_address ts.1) :: r.2.1,
        r.2.2)
    | .subscribe target =>
      match tid? with
      | none => (s, [], .errored)
      | some sub =>
        let ok := orc.headD true
        let orc1 := if spawnAttempted s target then orc.tail else orc
        let p := subscribeStep pid s sub target ok
        let r := runConn pid p.1 tid? orc1 rest
        (r.1, p.2 :: r.2.1, r.2.2)
    | .unsubscribe _ =>
      match tid? with
      | none => (s, [], .errored)
      | some _ => runConn pid s tid? orc rest
    | .queryCapabilities target =>
      let reply :=
        match s.get_connection target with
        | some info => ControlMessage.capabilitiesResponse info.capabilities
        | none =>
          ControlMessage.error "NOT_FOUND" ("Tool " ++ target ++ " not found")
      let r := runConn pid s tid? orc rest
      (r.1, reply :: r.2.1, r.2.2)
    | .queryTools =>
      let r := runConn pid s tid? orc rest
      (r.1, .toolsResponse s.list_tools :: r.2.1, r.2.2)
    | .disconnect =>
      match tid? with
      | some tid => (s.unregister_connection tid, [], .clean)
      | none => (s, [], .clean)
    | .connectAck _ _ | .subscribeAck _ _ | .flowControl _ _
    | .capabilitiesResponse _ | .toolsResponse _ | .error _ _ =>
      runConn pid s tid? orc rest

/-- Embedding of the broker's accept loop: each accepted connection is
handled by a worker whose error is caught and logged (`handle_connection`'s
`Result` is consumed by the spawning closure), so the broker proceeds to
the remaining connections whatever a worker's outcome. -/
def brokerRun (pid : Nat) (s : RouterState) :
    List (List Bool × List Event) → RouterState × List (List ControlMessage)
  | [] => (s, [])
  | (orc, evs) :: cs =>
    let w := runConn pid s none orc evs
    let b := brokerRun pid w.1 cs
    (b.1, w.2.1 :: b.2)

/-- C4 (amended): a control line that is not valid JSON for a
`ControlMessage` makes `recv_message` return `Err`, which `handle_connection`
propagates: the worker stops without sending any reply (in particular no
`Error` with code `BAD_REQUEST`), the broker state is untouched, and the
accept loop goes on serving the other connections unchanged. -/
theorem malformed_line_c4 (pid : Nat) (s : RouterState) (tid? : Option String)
    (orc orc1 : List Bool) (rest evs : List Event)
    (cs : List (List Bool × List Event)) :
    runConn pid s tid? orc (Event.malformed :: rest) = (s, [], .errored) ∧
    brokerRun pid s ((orc1, Event.malformed :: evs) :: cs) =
      ((brokerRun pid s cs).1, [] :: (brokerRun pid s cs).2) := by
  exact ⟨rfl, rfl⟩

/-- Counterexample to C4 as stated: a fresh broker receiving one malformed
line sends no message at all on that connection — no `Error` reply with code
`BAD_REQUEST` exists (the reply list is empty); only the connection errors
out. -/
theorem malformed_line_c4_counterexample :
    runConn 1 RouterState.new none [] [Event.malformed] =
      (RouterState.new, [], ConnResult.errored) := by
  rfl

theorem subscribeStep_msg (pid : Nat) (s : RouterState)
    (sub target : String) (ok : Bool) :
    (∃ a c, (subscribeStep pid s sub target ok).2 =
      ControlMessage.subscribeAck a c) ∨
    (subscribeStep pid s sub target ok).2 =
      ControlMessage.error "NOT_FOUND" ("Tool " ++ target ++ " not found") := by
  rw [subscribeStep]
  cases hconn : s.get_connection target with
  | none => right; rfl
  | some info =>
    left
    cases hpx : (s.add_subscription target sub).get_proxy_address target with
    | some addr => exact ⟨addr, info.capabilities, by simp [hpx]⟩
    | none =>
      cases ok with
      | true =>
        refine ⟨RouterState.proxyListenAddr pid (s.add_subscription target sub).next_seq,
          info.capabilities, ?_⟩
        simp [hpx, RouterState.spawn_proxy]
      | false =>
        exact ⟨info.data_listen_address, info.capabilities,
          by simp [hpx, RouterState.spawn_proxy]⟩

theorem runConn_errors_not_found (pid : Nat) :
    ∀ (evs : List Event) (s : RouterState) (tid? : Option String)
      (orc : List Bool) (code msg : String),
      ControlMessage.error code msg ∈ (runConn pid s tid? orc evs).2.1 →
      code = "NOT_FOUND" := by
  intro evs
  induction evs with
  | nil =>
    intro s tid? orc code msg h
    cases tid? <;> simp [runConn] at h
  | cons e rest ih =>
    intro s tid? orc code msg h
    cases e with
    | malformed => simp [runConn] at h
    | msg m =>
      cases m with
      | connect caps =>
        rw [runConn] at h
        rcases List.mem_cons.1 h with heq | hmem
        · exact absurd heq (by simp)
        · exact ih _ _ _ _ _ hmem
      | subscribe target =>
        cases tid? with
        | none => simp [runConn] at h
        | some sub =>
          rw [runConn] at h
          rcases List.mem_cons.1 h with heq | hmem
          · rcases subscribeStep_msg pid s sub target (orc.headD true) with
              ⟨a, c, hs⟩ | hs
            · rw [hs] at heq; exact absurd heq (by simp)
            · rw [hs] at heq
              have := (ControlMessage.error.injEq .. ▸ heq.symm).1
              exact this.symm
          · exact ih _ _ _ _ _ hmem
      | unsubscribe target =>
        cases tid? with
        | none => simp [runConn] at h
        | some sub => exact ih _ _ _ _ _ (by rw [runConn] at h; exact h)
      | queryCapabilities target =>
        rw [runConn] at h
        rcases List.mem_cons.1 h with heq | hmem
        · cases hconn : s.get_connection target with
          | some info => rw [hconn] at heq; exact absurd heq (by simp)
          | none =>
            rw [hconn] at heq
            have := (ControlMessage.error.injEq .. ▸ heq.symm).1
            exact this.symm
        · exact ih _ _ _ _ _ hmem
      | queryTools =>
        rw [runConn] at h
        rcases List.mem_cons.1 h with heq | hmem
        · exact absurd heq (by simp)
        · exact ih _ _ _ _ _ hmem
      | disconnect =>
        cases tid? <;> simp [runConn] at h
      | connectAck a b => exact ih _ _ _ _ _ (by rw [runConn] at h; exact h)
      | subscribeAck a b => exact ih _ _ _ _ _ (by rw [runConn] at h; exact h)
      | flowControl a b => exact ih _ _ _ _ _ (by rw [runConn] at h; exact h)
      | capabilitiesResponse a =>
        exact ih _ _ _ _ _ (by rw [runConn] at h; exact h)
      | toolsResponse a => exact ih _ _ _ _ _ (by rw [runConn] at h; exact h)
      | error a b => exact ih _ _ _ _ _ (by rw [runConn] at h; exact h)

/-- C5 (amended): in the pre-registered state (`tool_id` still `None`),
`Subscribe` and `Unsubscribe` fail the connection through the `context(...)?`
error path, sending no reply at all; `QueryCapabilities` and `QueryTools`
are answered exactly as for a registered peer; `Disconnect` closes the
connection cleanly; and the broker never sends an `Error` with code
`"PROTOCOL"` — every `Error` it ever emits carries code `"NOT_FOUND"`. -/
theorem preregistered_behavior_c5 (pid : Nat) (s : RouterState)
    (orc : List Bool) (rest : List Event) (t : String) :
    runConn pid s none orc (Event.msg (.subscribe t) :: rest) =
      (s, [], .errored) ∧
    runConn pid s none orc (Event.msg (.unsubscribe t) :: rest) =
      (s, [], .errored) ∧
    runConn pid s none orc (Event.msg .queryTools :: rest) =
      ((runConn pid s none orc rest).1,
        .toolsResponse s.list_tools :: (runConn pid s none orc rest).2.1,
        (runConn pid s none orc rest).2.2) ∧
    ((∃ info, s.get_connection t = some info ∧
        runConn pid s none orc (Event.msg (.queryCapabilities t) :: rest) =
          ((runConn pid s none orc rest).1,
            .capabilitiesResponse info.capabilities ::
              (runConn pid s none orc rest).2.1,
            (runConn pid s none orc rest).2.2)) ∨
      (s.get_connection t = none ∧
        runConn pid s none orc (Event.msg (.queryCapabilities t) :: rest) =
          ((runConn pid s none orc rest).1,
            .error "NOT_FOUND" ("Tool " ++ t ++ " not found") ::
              (runConn pid s none orc rest).2.1,
            (runConn pid s none orc rest).2.2))) ∧
    runConn pid s none orc (Event.msg .disconnect :: rest) =
      (s, [], .clean) ∧
    (∀ (s2 : RouterState) (tid? : Option String) (orc2 : List Bool)
        (evs : List Event) (code msg : String),
      ControlMessage.error code msg ∈ (runConn pid s2 tid? orc2 evs).2.1 →
      code ≠ "PROTOCOL") := by
  refine ⟨rfl, rfl, rfl, ?_, rfl, ?_⟩
  · cases hconn : s.get_connection t with
    | some info =>
      left
      exact ⟨info, rfl, by rw [runConn]; rw [hconn]⟩
    | none =>
      right
      exact ⟨rfl, by rw [runConn]; rw [hconn]⟩
  · intro s2 tid? orc2 evs code msg hmem
    rw [runConn_errors_not_found pid evs s2 tid? orc2 code msg hmem]
    intro hc
    exact absurd hc (by decide)

/-- Witness for C5 at a fresh broker: a pre-registered `Subscribe` errors the
connection with no reply, and a concrete emitted `Error` (a `NOT_FOUND` for
an unknown query target) indeed does not carry code `PROTOCOL`. -/
theorem preregistered_behavior_c5_witness :
    runConn 1 RouterState.new none [] [Event.msg (.subscribe "9-001")] =
      (RouterState.new, [], .errored) ∧
    "NOT_FOUND" ≠ "PROTOCOL" := by
  refine ⟨(preregistered_behavior_c5 1 RouterState.new [] [] "9-001").1, ?_⟩
  exact (preregistered_behavior_c5 1 RouterState.new [] [] "9-001").2.2.2.2.2
    RouterState.new none [] [Event.msg (.queryCapabilities "9-001")]
    "NOT_FOUND" "Tool 9-001 not found" (by decide)

/-- Counterexample to C5 as stated: a pre-registered `QueryTools` is answered
with a `ToolsResponse` and the connection stays open until EOF — no
`Error{code:"PROTOCOL"}` is sent and the connection is not closed on it; a
pre-registered `Subscribe` fails the connection without sending any message,
so no `PROTOCOL` error there either. -/
theorem preregistered_behavior_c5_counterexample :
    runConn 1 RouterState.new none [] [Event.msg ControlMessage.queryTools] =
      (RouterState.new, [ControlMessage.toolsResponse []],
        ConnResult.eofClosed) ∧
    runConn 1 RouterState.new none [] [Event.msg (.subscribe "9-001")] =
      (RouterState.new, [], ConnResult.errored) :=
  ⟨rfl, rfl⟩

/-! ## Subscription sequences (C6)

`runSubs` processes a list of `Subscribe` requests (subscriber, target,
spawn outcome) through the `Subscribe` arm, pairing each reply with its
target. -/

def runSubs (pid : Nat) (s : RouterState) :
    List (String × String × Bool) →
      RouterState × List (String × ControlMessage)
  | [] => (s, [])
  | (sub, tgt, ok) :: rest =>
    let p := subscribeStep pid s sub tgt ok
    let r := runSubs pid p.1 rest
    (r.1, (tgt, p.2) :: r.2)

theorem get_proxy_address_none {s : RouterState} {tgt : String}
    (h : s.get_proxy_address tgt = none) : alookup tgt s.proxies = none := by
  rw [RouterState.get_proxy_address] at h
  cases hl : alookup tgt s.proxies with
  | none => rfl
  | some p => rw [hl] at h; simp at h

theorem subscribeStep_proxies_persist (pid : Nat) (s : RouterState)
    (sub tgt : String) (ok : Bool) {T : String} {p : ProxyInfo}
    (h : alookup T s.proxies = some p) :
    alookup T (subscribeStep pid s sub tgt ok).1.proxies = some p := by
  have hs1 : (s.add_subscription tgt sub).proxies = s.proxies := rfl
  cases hconn : s.get_connection tgt with
  | none => simpa [subscribeStep, hconn] using h
  | some info =>
    cases hpx : (s.add_subscription tgt sub).get_proxy_address tgt with
    | some addr => simpa [subscribeStep, hconn, hpx, hs1] using h
    | none =>
      have hnone : alookup tgt s.proxies = none := by
        have := get_proxy_address_none hpx
        rwa [hs1] at this
      have hne : tgt ≠ T := by
        intro hc
        rw [hc, h] at hnone
        exact Option.noConfusion hnone
      cases ok with
      | true =>
        simp only [subscribeStep, hconn, hpx, RouterState.spawn_proxy,
          if_pos rfl]
        simpa [hs1, alookup_ainsert_ne hne] using h
      | false =>
        simpa [subscribeStep, hconn, hpx, RouterState.spawn_proxy, hs1]
          using h

theorem runSubs_proxies_persist (pid : Nat) (T : String) (p : ProxyInfo) :
    ∀ (ops : List (String × String × Bool)) (s : RouterState),
      alookup T s.proxies = some p →
      alookup T (runSubs pid s ops).1.proxies = some p := by
  intro ops
  induction ops with
  | nil => intro s h; exact h
  | cons op rest ih =>
    intro s h
    obtain ⟨sub, tgt, ok⟩ := op
    exact ih _ (subscribeStep_proxies_persist pid s sub tgt ok h)

theorem subscribeStep_ack_addr (pid : Nat) (s : RouterState)
    (sub tgt : String) {a : String} {c : List String}
    (h : (subscribeStep pid s sub tgt true).2 =
      ControlMessage.subscribeAck a c) :
    ∃ q : ProxyInfo,
      alookup tgt (subscribeStep pid s sub tgt true).1.proxies = some q ∧
      q.listen_address = a := by
  cases hconn : s.get_connection tgt with
  | none =>
    rw [subscribeStep] at h
    rw [hconn] at h
    exact absurd h (by simp)
  | some info =>
    cases hpx : (s.add_subscription tgt sub).get_proxy_address tgt with
    | some addr =>
      simp only [subscribeStep, hconn, hpx] at h ⊢
      have ha : addr = a := (ControlMessage.subscribeAck.injEq .. ▸ h).1
      rw [RouterState.get_proxy_address] at hpx
      cases hl : alookup tgt (s.add_subscription tgt sub).proxies with
      | none => rw [hl] at hpx; simp at hpx
      | some q =>
        rw [hl] at hpx
        simp only [Option.map_some', Option.some.injEq] at hpx
        exact ⟨q, rfl, hpx ▸ ha⟩
    | none =>
      simp only [subscribeStep, hconn, hpx, RouterState.spawn_proxy,
        if_pos rfl] at h ⊢
      have ha := (ControlMessage.subscribeAck.injEq .. ▸ h).1
      refine ⟨⟨RouterState.proxyListenAddr pid
        (s.add_subscription tgt sub).next_seq, tgt⟩, ?_, ha⟩
      exact alookup_ainsert_self tgt _ _

theorem runSubs_ack_proxy (pid : Nat) (T : String) :
    ∀ (ops : List (String × String × Bool)) (s : RouterState),
      (∀ op ∈ ops, op.2.2 = true) →
      ∀ a c, (T, ControlMessage.subscribeAck a c) ∈ (runSubs pid s ops).2 →
        ∃ q : ProxyInfo,
          alookup T (runSubs pid s ops).1.proxies = some q ∧
          q.listen_address = a := by
  intro ops
  induction ops with
  | nil => intro s _ a c h; simp [runSubs] at h
  | cons op rest ih =>
    intro s hok a c h
    obtain ⟨sub, tgt, ok⟩ := op
    have hoktrue : ok = true := hok _ (List.mem_cons_self _ _)
    subst hoktrue
    rw [runSubs] at h ⊢
    rcases List.mem_cons.1 h with heq | hmem
    · have htgt : tgt = T := (Prod.mk.injEq .. ▸ heq.symm).1
      have hmsg : (subscribeStep pid s sub tgt true).2 =
          ControlMessage.subscribeAck a c :=
        (Prod.mk.injEq .. ▸ heq.symm).2
      subst htgt
      obtain ⟨q, hq, hqa⟩ := subscribeStep_ack_addr pid s sub tgt hmsg
      exact ⟨q, runSubs_proxies_persist pid tgt q rest _ hq, hqa⟩
    · exact ih _ (fun op hop => hok op (List.mem_cons_of_mem _ hop)) a c hmem

/-- C6 (amended): along any sequence of `Subscribe` requests in which every
relay spawn attempt succeeds (no fallback to the adapter's direct address),
any two `SubscribeAck` replies for the same target carry the same
`data_connect_address`. (The original claim without the spawn-success
proviso is refuted by the fallback path.) -/
theorem subscribe_same_address_c6 (pid : Nat) (s : RouterState)
    (ops : List (String × String × Bool)) (T : String)
    (hok : ∀ op ∈ ops, op.2.2 = true)
    (a1 a2 : String) (c1 c2 : List String)
    (h1 : (T, ControlMessage.subscribeAck a1 c1) ∈ (runSubs pid s ops).2)
    (h2 : (T, ControlMessage.subscribeAck a2 c2) ∈ (runSubs pid s ops).2) :
    a1 = a2 := by
  obtain ⟨q1, hq1, hqa1⟩ := runSubs_ack_proxy pid T ops s hok a1 c1 h1
  obtain ⟨q2, hq2, hqa2⟩ := runSubs_ack_proxy pid T ops s hok a2 c2 h2
  have hq : q1 = q2 := Option.some.inj (hq1.symm.trans hq2)
  rw [← hqa1, ← hqa2, hq]

/-- Witness for C6: two successful subscriptions to the registered tool
`7-001`; both acks carry the spawned relay's address and the theorem yields
their equality. -/
theorem subscribe_same_address_c6_witness :
    ("7-001", ControlMessage.subscribeAck "unix:///tmp/gbe-proxy-1-002.sock"
        []) ∈
      (runSubs 1
        (RouterState.mk 2
          [("7-001", ⟨"7-001", "unix:///tmp/gbe-7-001.sock", []⟩)] [] [])
        [("A", "7-001", true), ("B", "7-001", true)]).2 ∧
    "unix:///tmp/gbe-proxy-1-002.sock" = "unix:///tmp/gbe-proxy-1-002.sock" := by
  constructor
  · decide
  · exact subscribe_same_address_c6 1
      (RouterState.mk 2
        [("7-001", ⟨"7-001", "unix:///tmp/gbe-7-001.sock", []⟩)] [] [])
      [("A", "7-001", true), ("B", "7-001", true)] "7-001"
      (by decide) _ _ [] [] (by decide) (by decide)

/-- Counterexample to C6 as stated: with the target registered and no proxy
yet, a first `Subscribe` whose relay spawn fails falls back to the adapter's
direct address while a second, successful one returns the fresh relay
address — the two `SubscribeAck.data_connect_address` values differ. -/
theorem subscribe_same_address_c6_counterexample :
    (runSubs 1
        (RouterState.mk 5
          [("7-001", ⟨"7-001", "unix:///tmp/gbe-7-001.sock", []⟩)] [] [])
        [("A", "7-001", false), ("B", "7-001", true)]).2 =
      [("7-001", ControlMessage.subscribeAck "unix:///tmp/gbe-7-001.sock" []),
       ("7-001", ControlMessage.subscribeAck
         "unix:///tmp/gbe-proxy-1-006.sock" [])] ∧
    "unix:///tmp/gbe-7-001.sock" ≠ "unix:///tmp/gbe-proxy-1-006.sock" :=
  ⟨by decide, by decide⟩

/-! ## Adapter shutdown (`src/adapter/src/main.rs`)

On the clean path the adapter's `main` waits for the child, joins the data
thread, sends `Disconnect`, removes the socket file, and returns `Ok(())`.
The child's `ExitStatus` is bound and logged but never used for the return
value, and a Rust `fn main() -> Result<..>` exits 0 on `Ok`. -/

/-- Result of the adapter's `main` on the clean-shutdown path as a function
of the wrapped child's exit code: always `Ok(())` — the status is only
logged. -/
def adapterMainResult (_childExitCode : Nat) : Except String Unit :=
  .ok ()

/-- Process exit code of the adapter: 0 when `main` returns `Ok`, nonzero on
`Err` (the `anyhow` runtime uses 1). -/
def adapterExitCode (childExitCode : Nat) : Nat :=
  match adapterMainResult childExitCode with
  | .ok _ => 0
  | .error _ => 1

/-- C7 (amended): after the child exits and the adapter sends a clean
`Disconnect`, the adapter process exits with code 0 regardless of the
child's exit code — the child's status is logged but not propagated. -/
theorem adapter_exit_code_c7 (childExitCode : Nat) :
    adapterExitCode childExitCode = 0 :=
  rfl

/-- Counterexample to C7 as stated: a child exiting with code 3 still leaves
the adapter exiting with 0, not 3. -/
theorem adapter_exit_code_c7_counterexample :
    adapterExitCode 3 = 0 ∧ adapterExitCode 3 ≠ 3 :=
  ⟨rfl, by decide⟩

/-! ## Ring buffer (`src/buffer/src/ring.rs`) -/

structure RingBuffer where
  capacity : Nat
  lines : List String
  total_pushed : Nat
  deriving DecidableEq, Repr

namespace RingBuffer

/-- Embedding of `RingBuffer::new`: the `assert!(capacity != 0)` panic is
modelled as `none`. -/
def new? (capacity : Nat) : Option RingBuffer :=
  if capacity = 0 then none else some ⟨capacity, [], 0⟩

/-- Embedding of `RingBuffer::push`: evict the oldest line when at (or
above) capacity, then append, bumping the `usize` counter `total_pushed`,
whose `+= 1` wraps modulo `2^64` (release-build overflow semantics on the
64-bit target; debug builds panic at the same bound). -/
def push (b : RingBuffer) (line : String) : RingBuffer :=
  if b.capacity ≤ b.lines.length then
    { b with lines := b.lines.tail ++ [line],
             total_pushed := (b.total_pushed + 1) % 2 ^ 64 }
  else
    { b with lines := b.lines ++ [line],
             total_pushed := (b.total_pushed + 1) % 2 ^ 64 }

/-- Embedding of `RingBuffer::push_lines`. -/
def push_lines (b : RingBuffer) (ls : List String) : RingBuffer :=
  ls.foldl push b

/-- Embedding of `RingBuffer::get` (0 = oldest resident line). -/
def get (b : RingBuffer) (index : Nat) : Option String :=
  b.lines.get? index

/-- Embedding of `RingBuffer::clear`: also resets the total counter. -/
def clear (b : RingBuffer) : RingBuffer :=
  { b with lines := [], total_pushed := 0 }

/-- Embedding of `RingBuffer::resize`: `assert!(new_capacity != 0)` is
modelled as `none`; the `while`-loop popping the front until within
capacity is `drop (len - new_capacity)`. -/
def resize? (b : RingBuffer) (new_capacity : Nat) : Option RingBuffer :=
  if new_capacity = 0 then none
  else some { b with capacity := new_capacity,
                     lines := b.lines.drop (b.lines.length - new_capacity) }

theorem push_lines_append (b : RingBuffer) (xs : List String) (y : String) :
    b.push_lines (xs ++ [y]) = (b.push_lines xs).push y := by
  simp [push_lines, List.foldl_append]

theorem push_capacity (b : RingBuffer) (line : String) :
    (b.push line).capacity = b.capacity := by
  rw [push]
  split <;> rfl

theorem push_total (b : RingBuffer) (line : String) :
    (b.push line).total_pushed = (b.total_pushed + 1) % 2 ^ 64 := by
  rw [push]
  split <;> rfl

theorem push_lines_spec (c : Nat) (hc : 0 < c) (xs : List String) :
    (push_lines ⟨c, [], 0⟩ xs).capacity = c ∧
    (push_lines ⟨c, [], 0⟩ xs).total_pushed = xs.length % 2 ^ 64 ∧
    (push_lines ⟨c, [], 0⟩ xs).lines = xs.drop (xs.length - c) := by
  induction xs using List.reverseRecOn with
  | nil => exact ⟨rfl, rfl, by simp [push_lines]⟩
  | append_singleton xs y ih =>
    obtain ⟨ihc, iht, ihl⟩ := ih
    rw [push_lines_append]
    refine ⟨by rw [push_capacity, ihc], ?_, ?_⟩
    · rw [push_total, iht, List.length_append]
      simp only [List.length_cons, List.length_nil]
      omega
    · have hlen : (push_lines ⟨c, [], 0⟩ xs).lines.length =
          xs.length - (xs.length - c) := by rw [ihl, List.length_drop]
      rw [push]
      by_cases hfull : c ≤ xs.length
      · have hcond : (push_lines ⟨c, [], 0⟩ xs).capacity ≤
            (push_lines ⟨c, [], 0⟩ xs).lines.length := by
          rw [ihc, hlen]; omega
        rw [if_pos hcond]
        show (push_lines ⟨c, [], 0⟩ xs).lines.tail ++ [y] = _
        rw [ihl, List.tail_drop]
        have hd : (xs ++ [y]).drop ((xs ++ [y]).length - c) =
            xs.drop ((xs ++ [y]).length - c) ++ [y] := by
          refine List.drop_append_of_le_length ?_
          simp
          omega
        have harith : (xs ++ [y]).length - c = xs.length - c + 1 := by
          simp only [List.length_append, List.length_singleton]
          omega
        rw [hd, harith]
      · have hcond : ¬ (push_lines ⟨c, [], 0⟩ xs).capacity ≤
            (push_lines ⟨c, [], 0⟩ xs).lines.length := by
          rw [ihc, hlen]; omega
        rw [if_neg hcond]
        show (push_lines ⟨c, [], 0⟩ xs).lines ++ [y] = _
        rw [ihl]
        have h0 : xs.length - c = 0 := by omega
        have h1 : (xs ++ [y]).length - c = 0 := by simp; omega
        rw [h0, h1, List.drop_zero, List.drop_zero]

end RingBuffer

/-- C8: pushing K > c items into a fresh ring buffer of capacity c > 0
leaves exactly the last c items, in push order, with `len() = c` and
`total_pushed() = K`, provided K stays below the `usize` counter's wrap
bound `2^64` (the disclosed representability hypothesis; `+= 1` wraps
there); the indexed `get` (0 = oldest) reads those residents off the tail
of the pushed sequence. -/
theorem ring_overflow_c8 (c : Nat) (b0 : RingBuffer) (xs : List String)
    (hb : RingBuffer.new? c = some b0) (hKc : c < xs.length)
    (hK64 : xs.length < 2 ^ 64) :
    (b0.push_lines xs).lines.length = c ∧
    (b0.push_lines xs).total_pushed = xs.length ∧
    (b0.push_lines xs).lines = xs.drop (xs.length - c) ∧
    ∀ i, (b0.push_lines xs).get i = xs.get? (xs.length - c + i) := by
  have hc : c ≠ 0 ∧ b0 = ⟨c, [], 0⟩ := by
    rw [RingBuffer.new?] at hb
    by_cases h : c = 0
    · rw [if_pos h] at hb; exact absurd hb (by simp)
    · rw [if_neg h] at hb
      exact ⟨h, (Option.some.inj hb).symm⟩
  obtain ⟨hc0, hb0⟩ := hc
  subst hb0
  obtain ⟨_, ht, hl⟩ := RingBuffer.push_lines_spec c (Nat.pos_of_ne_zero hc0) xs
  refine ⟨?_, ?_, hl, ?_⟩
  · rw [hl, List.length_drop]
    omega
  · rw [ht]
    exact Nat.mod_eq_of_lt hK64
  · intro i
    rw [RingBuffer.get, hl]
    simp [List.get?_eq_getElem?, List.getElem?_drop]

/-- Witness for C8: capacity 2, three pushes; the residents are the last
two lines in order. -/
theorem ring_overflow_c8_witness :
    (RingBuffer.push_lines ⟨2, [], 0⟩ ["a", "b", "c"]).lines.length = 2 ∧
    (RingBuffer.push_lines ⟨2, [], 0⟩ ["a", "b", "c"]).total_pushed = 3 ∧
    (RingBuffer.push_lines ⟨2, [], 0⟩ ["a", "b", "c"]).lines =
      ["a", "b", "c"].drop 1 ∧
    ∀ i, (RingBuffer.push_lines ⟨2, [], 0⟩ ["a", "b", "c"]).get i =
      ["a", "b", "c"].get? (1 + i) :=
  ring_overflow_c8 2 ⟨2, [], 0⟩ ["a", "b", "c"] (by rfl) (by decide)
    (by norm_num)

/-! ## Ring buffer reachability invariant (C10) -/

/-- States of a `RingBuffer` reachable through its public constructors and
mutators (`new`, `push`, `push_lines`, `clear`, `resize`); the zero-capacity
panics of `new` and `resize` appear as the `some`-hypotheses. -/
inductive RingReachable : RingBuffer → Prop where
  | new : ∀ c b, RingBuffer.new? c = some b → RingReachable b
  | push : ∀ b line, RingReachable b → RingReachable (b.push line)
  | push_lines : ∀ b ls, RingReachable b → RingReachable (b.push_lines ls)
  | clear : ∀ b, RingReachable b → RingReachable b.clear
  | resize : ∀ b c b2, RingReachable b → b.resize? c = some b2 →
      RingReachable b2

theorem push_preserves_inv {b : RingBuffer} (line : String)
    (h : b.lines.length ≤ b.capacity ∧ 0 < b.capacity) :
    (b.push line).lines.length ≤ (b.push line).capacity ∧
    0 < (b.push line).capacity := by
  obtain ⟨hlen, hcap⟩ := h
  rw [RingBuffer.push]
  by_cases hfull : b.capacity ≤ b.lines.length
  · rw [if_pos hfull]
    refine ⟨?_, hcap⟩
    simp only [List.length_append, List.length_tail, List.length_cons,
      List.length_nil]
    omega
  · rw [if_neg hfull]
    refine ⟨?_, hcap⟩
    simp only [List.length_append, List.length_cons, List.length_nil]
    omega

theorem push_lines_preserves_inv :
    ∀ (ls : List String) (b : RingBuffer),
      b.lines.length ≤ b.capacity ∧ 0 < b.capacity →
      (b.push_lines ls).lines.length ≤ (b.push_lines ls).capacity ∧
      0 < (b.push_lines ls).capacity := by
  intro ls
  induction ls with
  | nil => intro b h; exact h
  | cons l t ih =>
    intro b h
    exact ih (b.push l) (push_preserves_inv l h)

/-- C10: every ring buffer reachable by any sequence of `new`, `push`,
`push_lines`, `clear` and `resize` operations satisfies
`len() ≤ capacity()` and `capacity() > 0`; constructing or resizing to
capacity 0 is rejected (panics, modelled as `none`). -/
theorem ring_invariant_c10 (b : RingBuffer) (hb : RingReachable b) :
    b.lines.length ≤ b.capacity ∧ 0 < b.capacity ∧
    RingBuffer.new? 0 = none ∧
    (∀ b2 : RingBuffer, b2.resize? 0 = none) := by
  have main : b.lines.length ≤ b.capacity ∧ 0 < b.capacity := by
    induction hb with
    | new c b0 hnew =>
      rw [RingBuffer.new?] at hnew
      by_cases hc : c = 0
      · rw [if_pos hc] at hnew; exact absurd hnew (by simp)
      · rw [if_neg hc] at hnew
        have hb0 := (Option.some.inj hnew).symm
        subst hb0
        exact ⟨by simp, Nat.pos_of_ne_zero hc⟩
    | push b0 line _ ih => exact push_preserves_inv line ih
    | push_lines b0 ls _ ih => exact push_lines_preserves_inv ls b0 ih
    | clear b0 _ ih => exact ⟨by simp [RingBuffer.clear], ih.2⟩
    | resize b0 c b2 _ hres ih =>
      rw [RingBuffer.resize?] at hres
      by_cases hc : c = 0
      · rw [if_pos hc] at hres; exact absurd hres (by simp)
      · rw [if_neg hc] at hres
        have hb2 := (Option.some.inj hres).symm
        subst hb2
        refine ⟨?_, Nat.pos_of_ne_zero hc⟩
        simp only [List.length_drop]
        omega
  exact ⟨main.1, main.2, rfl, fun b2 => rfl⟩

/-- Witness for C10 at a concrete reachable buffer: capacity 2, three pushes
and a resize to 1. -/
theorem ring_invariant_c10_witness :
    (((RingBuffer.push_lines ⟨2, [], 0⟩ ["a", "b", "c"]).resize?
        1).getD ⟨1, [], 0⟩).lines.length ≤
      (((RingBuffer.push_lines ⟨2, [], 0⟩ ["a", "b", "c"]).resize?
        1).getD ⟨1, [], 0⟩).capacity ∧
    0 < (((RingBuffer.push_lines ⟨2, [], 0⟩ ["a", "b", "c"]).resize?
        1).getD ⟨1, [], 0⟩).capacity ∧
    RingBuffer.new? 0 = none ∧
    (∀ b2 : RingBuffer, b2.resize? 0 = none) :=
  ring_invariant_c10 _
    (RingReachable.resize _ 1 _
      (RingReachable.push_lines ⟨2, [], 0⟩ ["a", "b", "c"]
        (RingReachable.new 2 _ rfl))
      rfl)

/-! ## Rope (text-store) buffer (`src/buffer/src/rope.rs`)

The content is the `String`'s UTF-8 byte vector, modelled as a list of
bytes; `Position`/`Range` are byte offsets exactly as in the source. The
`pos > len` and range checks return the structured `BufferError`s of the
Rust code, while `String::insert_str` and `String::drain` panic when an
offset is not a character boundary of the string — the panic is modelled
as `none`. -/

inductive BufferError where
  | outOfBounds (pos : Nat)
  | invalidRange (start stop : Nat)
  | bufferFull (capacity : Nat)
  | invalidOperation (message : String)
  deriving DecidableEq, Repr

/-- Whether a byte is a UTF-8 continuation byte (`0x80..0xC0`). -/
def isContinuationByte (b : Nat) : Bool :=
  decide (128 ≤ b) && decide (b < 192)

/-- Embedding of `str::is_char_boundary`: position 0 and the end of the
string are boundaries; an interior position is one exactly when its byte is
not a continuation byte. -/
def isCharBoundary (content : List Nat) (pos : Nat) : Bool :=
  pos == 0 ||
    match content.get? pos with
    | none => pos == content.length
    | some b => ! isContinuationByte b

theorem isCharBoundary_zero (content : List Nat) :
    isCharBoundary content 0 = true := by
  unfold isCharBoundary
  simp

theorem isCharBoundary_of_get {content : List Nat} {pos b0 : Nat}
    (h : content.get? pos = some b0) (hb : isContinuationByte b0 = false) :
    isCharBoundary content pos = true := by
  unfold isCharBoundary
  rw [h]
  simp [hb]

theorem isCharBoundary_of_none {content : List Nat} {pos : Nat}
    (h : content.get? pos = none) (hlen : pos = content.length) :
    isCharBoundary content pos = true := by
  unfold isCharBoundary
  rw [h]
  simp [hlen]

structure RopeBuffer where
  content : List Nat
  deriving DecidableEq, Repr

namespace RopeBuffer

/-- Embedding of `RopeBuffer::insert`: reject `pos > len` with the
structured error, then `String::insert_str`, which splices the text in at
byte offset `pos` and panics (`none`) when `pos` is not a character
boundary. -/
def insert (b : RopeBuffer) (pos : Nat) (text : List Nat) :
    Option (Except BufferError RopeBuffer) :=
  if pos > b.content.length then
    some (.error (.outOfBounds pos))
  else if isCharBoundary b.content pos then
    some (.ok ⟨b.content.take pos ++ text ++ b.content.drop pos⟩)
  else
    none

/-- Embedding of `RopeBuffer::delete`: reject `start > end` and
`end > len` with the structured errors, then `String::drain`, which removes
the half-open byte range and panics (`none`) unless both endpoints are
character boundaries. -/
def delete (b : RopeBuffer) (start stop : Nat) :
    Option (Except BufferError RopeBuffer) :=
  if start > stop then
    some (.error (.invalidRange start stop))
  else if stop > b.content.length then
    some (.error (.outOfBounds stop))
  else if isCharBoundary b.content start && isCharBoundary b.content stop then
    some (.ok ⟨b.content.take start ++ b.content.drop stop⟩)
  else
    none

end RopeBuffer

/-- C9 (amended): positions are byte offsets; provided the insertion point
`p ≤ len` lies on a character boundary in the semantic sense (`p` is the
content length, or the byte at `p` starts a character) and the inserted
text is itself well-formed UTF-8 at its start (it does not begin with a
continuation byte — true of every Rust `&str`), `insert(p, t)` succeeds and
`delete(p .. p + |t|)` succeeds and restores the exact pre-insert content.
At a byte offset inside a multi-byte character, `String::insert_str` panics
instead, which refutes the claim as stated. -/
theorem rope_insert_delete_c9 (b : RopeBuffer) (p : Nat) (t : List Nat)
    (hp : p ≤ b.content.length)
    (hbnd : p = b.content.length ∨
      ∃ b0, b.content.get? p = some b0 ∧ isContinuationByte b0 = false)
    (ht : ∀ b0, t.head? = some b0 → isContinuationByte b0 = false) :
    ∃ b1 : RopeBuffer,
      b.insert p t = some (.ok b1) ∧
      b1.delete p (p + t.length) = some (.ok ⟨b.content⟩) := by
  have htake : (b.content.take p).length = p :=
    List.length_take_of_le hp
  have hcb : isCharBoundary b.content p = true := by
    rcases hbnd with hlen | ⟨b0, hb0, hcont⟩
    · exact isCharBoundary_of_none
        (List.get?_eq_none.mpr (le_of_eq hlen.symm)) hlen
    · exact isCharBoundary_of_get hb0 hcont
  refine ⟨⟨b.content.take p ++ t ++ b.content.drop p⟩, ?_, ?_⟩
  · rw [RopeBuffer.insert, if_neg (by omega), if_pos hcb]
  · have hlen1 : (b.content.take p ++ t ++ b.content.drop p).length =
        b.content.length + t.length := by
      simp only [List.length_append, htake, List.length_drop]
      omega
    have hget_pt : (b.content.take p ++ t ++ b.content.drop p).get?
        (p + t.length) = b.content.get? p := by
      have hlen2 : (b.content.take p ++ t).length = p + t.length := by
        simp [htake]
      rw [List.get?_eq_getElem?, List.getElem?_append_right (le_of_eq hlen2),
        hlen2, Nat.sub_self, List.getElem?_drop, Nat.add_zero,
        ← List.get?_eq_getElem?]
    have hB1 : isCharBoundary
        (b.content.take p ++ t ++ b.content.drop p) p = true := by
      by_cases hp0 : p = 0
      · rw [hp0]
        exact isCharBoundary_zero _
      · cases ht0 : t with
        | nil =>
          rw [List.append_nil, List.take_append_drop]
          exact hcb
        | cons b0 t2 =>
          have hh : isContinuationByte b0 = false :=
            ht b0 (by rw [ht0]; rfl)
          have hget_p : (b.content.take p ++ (b0 :: t2) ++
              b.content.drop p).get? p = some b0 := by
            rw [List.get?_eq_getElem?, List.append_assoc,
              List.getElem?_append_right (le_of_eq htake), htake,
              Nat.sub_self]
            exact List.getElem?_cons_zero
          exact isCharBoundary_of_get hget_p hh
    have hB2 : isCharBoundary
        (b.content.take p ++ t ++ b.content.drop p) (p + t.length) = true := by
      by_cases hpt : p + t.length = 0
      · rw [hpt]
        exact isCharBoundary_zero _
      · rcases hbnd with hlen | ⟨b0, hb0, hcont⟩
        · refine isCharBoundary_of_none ?_ ?_
          · rw [hget_pt]
            exact List.get?_eq_none.mpr (le_of_eq hlen.symm)
          · rw [hlen1, ← hlen]
        · exact isCharBoundary_of_get (by rw [hget_pt]; exact hb0) hcont
    have hc1 : ¬ p > p + t.length := by omega
    have hc2 : ¬ p + t.length >
        (⟨b.content.take p ++ t ++ b.content.drop p⟩ :
          RopeBuffer).content.length := by
      show ¬ p + t.length > (b.content.take p ++ t ++ b.content.drop p).length
      omega
    have hcond : (isCharBoundary
        (⟨b.content.take p ++ t ++ b.content.drop p⟩ :
          RopeBuffer).content p &&
        isCharBoundary
          (⟨b.content.take p ++ t ++ b.content.drop p⟩ :
            RopeBuffer).content (p + t.length)) = true := by
      show (isCharBoundary (b.content.take p ++ t ++ b.content.drop p) p &&
        isCharBoundary (b.content.take p ++ t ++ b.content.drop p)
          (p + t.length)) = true
      rw [hB1, hB2]
      rfl
    rw [RopeBuffer.delete, if_neg hc1, if_neg hc2, if_pos hcond]
    have h1 : (b.content.take p ++ t ++ b.content.drop p).take p =
        b.content.take p := by
      rw [List.append_assoc]
      exact List.take_left' htake
    have h2 : (b.content.take p ++ t ++ b.content.drop p).drop
        (p + t.length) = b.content.drop p :=
      List.drop_left' (by simp [htake])
    rw [h1, h2, List.take_append_drop]

/-- Witness for C9: insert the byte of `"x"` into `"hi"` (bytes 104 105) at
byte position 1 (a character boundary), then delete `1..2`; the content
returns to `"hi"`. -/
theorem rope_insert_delete_c9_witness :
    ∃ b1 : RopeBuffer,
      RopeBuffer.insert ⟨[104, 105]⟩ 1 [120] = some (.ok b1) ∧
      b1.delete 1 (1 + 1) = some (.ok ⟨[104, 105]⟩) :=
  rope_insert_delete_c9 ⟨[104, 105]⟩ 1 [120] (by decide)
    (Or.inr ⟨105, rfl, rfl⟩)
    (fun b0 h => by injection h with h; subst h; rfl)

/-- Counterexample to C9 as stated: byte position 1 of the two-byte
character `é` (UTF-8 `C3 A9`) satisfies the claim's precondition
`p ≤ len`, yet `insert` hits `String::insert_str`'s character-boundary
panic (modelled `none`) — no insert-then-delete restore exists at this
input. -/
theorem rope_insert_delete_c9_counterexample :
    (1 ≤ (⟨[0xC3, 0xA9]⟩ : RopeBuffer).content.length) ∧
    RopeBuffer.insert ⟨[0xC3, 0xA9]⟩ 1 [0x78] = none :=
  ⟨by decide, by rfl⟩

end GbeEnvoy
